import Mathlib

/-!
Verification of the NFC door controller (src/NFC_Door.ino).

The embedding models the persistent EEPROM credential store, the admin mode
flag, and the scan handling pass of loop(). Byte memory is a function from
addresses to natural numbers; every hardware write truncates its value mod 256
and bumps an instrumentation counter of physical writes per address, so that
the wear minimisation properties can be stated. LED, serial and motor side
effects carry no store state and are abstracted into the Outcome value of a
cycle.
-/

/-- A UID buffer, index to byte. The records are 7 bytes wide, so only indices
0..6 are ever compared or stored. -/
abbrev UID := Nat → Nat

/-- The hard coded master card UID entry, the array at line 40 of the source. -/
def masterUIDEntry : UID := fun i => [240, 200, 160, 120, 80, 40, 0].getD i 0

/-- The hard coded null UID entry (tombstone), the array at line 45 of the source:
seven bytes of value 255. -/
def nullUIDEntry : UID := fun i => [255, 255, 255, 255, 255, 255, 255].getD i 0

/-- checkUIDsMatch: the comparison loop over bytes 0..6 of the two buffers.
The source sets a flag to false on any index mismatch, so the result is true
exactly when all seven byte pairs agree. -/
def checkUIDsMatch (u1 u2 : UID) : Bool :=
  (List.range 7).all (fun i => u1 i == u2 i)

/-- The EEPROM: byte memory plus an instrumentation counter of physical writes
per address (the counter is not part of the program state, it only observes). -/
structure EEPROMState where
  mem : Nat → Nat
  writes : Nat → Nat

/-- EEPROM.read. -/
def EEPROMState.read (s : EEPROMState) (a : Nat) : Nat := s.mem a

/-- EEPROM.write: one physical write; the hardware takes a single byte, so the
value is truncated mod 256. -/
def EEPROMState.write (s : EEPROMState) (a : Nat) (v : Nat) : EEPROMState where
  mem := fun x => if x = a then v % 256 else s.mem x
  writes := fun x => if x = a then s.writes x + 1 else s.writes x

/-- eepromSafeWrite, lines 330-336 of the source: physically write only when the
stored byte differs from the target byte. The C parameter has type byte, so the
comparison is against the truncated value. -/
def eepromSafeWrite (s : EEPROMState) (a : Nat) (v : Nat) : EEPROMState :=
  if s.read a ≠ v % 256 then s.write a v else s

/-- A sequence of eepromSafeWrite calls, used to express the write loops of the
source as folds over explicit address and value lists. -/
def writeBytes (s : EEPROMState) (ps : List (Nat × Nat)) : EEPROMState :=
  ps.foldl (fun t p => eepromSafeWrite t p.1 p.2) s

/-- Reading one 7 byte record starting at the given EEPROM address into a
buffer, the read loops at lines 169-172 and 390-393 of the source. -/
def readEntry (s : EEPROMState) (addr : Nat) : UID := fun i => s.read (addr + i)

/-- Start address of record slot e (1 indexed): slot e occupies addresses
1 + (e-1)*7 .. 1 + (e-1)*7 + 6; address 0 is the count header. -/
def slotAddr (e : Nat) : Nat := 1 + (e - 1) * 7

/-- The lookup scan of loop(), lines 164-199: the first slot e in 1..count whose
stored record matches the scanned buffer, scanning in address order. -/
def findSlot (s : EEPROMState) (count : Nat) (u : UID) : Option Nat :=
  ((List.range count).map (· + 1)).find?
    (fun e => checkUIDsMatch u (readEntry s (slotAddr e)))

/-- The recycle scan of eepromWriteScannedUIDBuffer, lines 381-411: the first
slot e in 1..count whose stored record equals the null entry. The source guards
the scan with entryCount > 0; with count = 0 the scan list is empty, which is
the same behaviour. -/
def findTombstone (s : EEPROMState) (count : Nat) : Option Nat :=
  ((List.range count).map (· + 1)).find?
    (fun e => checkUIDsMatch (readEntry s (slotAddr e)) nullUIDEntry)

/-- The 7 byte record write loop: eepromSafeWrite of u at base, base+1, ..., base+6. -/
def writeUIDAt (s : EEPROMState) (base : Nat) (u : UID) : EEPROMState :=
  writeBytes s ((List.range 7).map (fun i => (base + i, u i)))

/-- Result of one call of eepromWriteScannedUIDBuffer, derived from which branch
runs (recycle write, fresh write with header update, or the out of space error). -/
inductive InsertOutcome where
  | recycled (entry : Nat)
  | fresh (oldCount : Nat)
  | storeFull
  deriving DecidableEq

/-- eepromWriteScannedUIDBuffer, lines 377-436 of the source. entryCount is the
global read from EEPROM address 0 earlier in loop(); scanned is the scanned UID
buffer. When the recycle scan finds the tombstone at slot e, the source writes
the seven bytes at addresses (e * 7) + 1 + i, exactly as written at line 399.
On the fresh path the seven bytes go to (entryCount * 7) + 1 + i and the header
update at line 422 is a raw EEPROM.write, not an eepromSafeWrite. The routine
also clears the admin flag; that assignment is modelled at the loopCycle level. -/
def eepromWriteScannedUIDBuffer (s : EEPROMState) (entryCount : Nat) (scanned : UID) :
    EEPROMState × InsertOutcome :=
  match findTombstone s entryCount with
  | some e => (writeUIDAt s (e * 7 + 1) scanned, .recycled e)
  | none =>
    if entryCount < 145 then
      ((writeUIDAt s (entryCount * 7 + 1) scanned).write 0 (entryCount + 1),
        .fresh entryCount)
    else
      (s, .storeFull)

/-- Insert as invoked from loop(): the entry count global is read from EEPROM
address 0 (line 157) before eepromWriteScannedUIDBuffer runs. -/
def insertOp (s : EEPROMState) (u : UID) : EEPROMState × InsertOutcome :=
  eepromWriteScannedUIDBuffer s (s.read 0) u

/-- The removal loop of loop(), lines 183-186: overwrite the 7 bytes of the
matched slot with the byte at index 0 of the null entry, which is 255. -/
def removeSlot (s : EEPROMState) (e : Nat) : EEPROMState :=
  writeBytes s ((List.range 7).map (fun i => (slotAddr e + i, nullUIDEntry 0)))

/-- The value of the C expression at index i into the null entry array in the
wipe loop at line 148. For i < 7 it is the array element 255; for i >= 7 the
source reads past the end of the 7 element array, which is undefined behaviour,
so the value is whatever adjacent memory holds, modelled by the oracle oob. -/
def nullUIDEntryAt (oob : Nat → Nat) (i : Nat) : Nat :=
  if i < 7 then nullUIDEntry i else oob i

/-- The address and value pairs of the wipe loop at lines 146-149: for each
i = 1..1023, the byte the source reads from the null entry array at index i. -/
def wipePairs (oob : Nat → Nat) : List (Nat × Nat) :=
  ((List.range 1023).map (· + 1)).map (fun i => (i, nullUIDEntryAt oob i))

/-- The wipe branch of loop(), lines 144-149: eepromSafeWrite(0, 0) followed by
eepromSafeWrite at each address i = 1..1023 of the byte the source reads from
the null entry array at index i. -/
def wipeAll (oob : Nat → Nat) (s : EEPROMState) : EEPROMState :=
  writeBytes (eepromSafeWrite s 0 0) (wipePairs oob)

/-- Lookup as loop() performs it: read the count header from address 0, then
scan slots 1..count for the first match; none means access denied. -/
def Lookup (s : EEPROMState) (u : UID) : Option Nat :=
  findSlot s (s.read 0) u

/-- The program state visible to one scan handling pass: the EEPROM, the
scanned UID buffer global, and the admin mode flag global. -/
structure SysState where
  eeprom : EEPROMState
  scannedUIDBuffer : UID
  adminMode : Bool

/-- The observable outcome of one scan handling pass, standing in for the LED,
serial and motor side effects of each branch of loop(). -/
inductive Outcome where
  | enteredAdmin
  | wiped
  | granted (slot : Nat)
  | removed (slot : Nat)
  | denied
  | inserted (r : InsertOutcome)
  deriving DecidableEq

/-- One scan handling pass of loop() after a successful card read, lines
117-229 of the source: master card toggles admin mode or wipes; otherwise the
count header is read and the table scanned; a match unlocks (normal) or removes
the entry (admin); no match denies (normal) or runs the insert routine (admin). -/
def loopCycle (oob : Nat → Nat) (st : SysState) : SysState × Outcome :=
  if checkUIDsMatch st.scannedUIDBuffer masterUIDEntry then
    if !st.adminMode then
      ({ st with adminMode := true }, .enteredAdmin)
    else
      ({ st with eeprom := wipeAll oob st.eeprom, adminMode := false }, .wiped)
  else
    if st.eeprom.read 0 > 0 then
      match findSlot st.eeprom (st.eeprom.read 0) st.scannedUIDBuffer with
      | some e =>
        if !st.adminMode then
          (st, .granted e)
        else
          ({ st with eeprom := removeSlot st.eeprom e, adminMode := false }, .removed e)
      | none =>
        if !st.adminMode then
          (st, .denied)
        else
          ({ st with
              eeprom :=
                (eepromWriteScannedUIDBuffer st.eeprom (st.eeprom.read 0)
                  st.scannedUIDBuffer).1,
              adminMode := false },
            .inserted (eepromWriteScannedUIDBuffer st.eeprom (st.eeprom.read 0)
              st.scannedUIDBuffer).2)
    else
      if !st.adminMode then
        (st, .denied)
      else
        ({ st with
            eeprom :=
              (eepromWriteScannedUIDBuffer st.eeprom (st.eeprom.read 0)
                st.scannedUIDBuffer).1,
            adminMode := false },
          .inserted (eepromWriteScannedUIDBuffer st.eeprom (st.eeprom.read 0)
            st.scannedUIDBuffer).2)

/-- Modelled from the spec: the external reader call readPassiveTargetID (the
Adafruit shield library, not part of src/) reports an identifier of length 4 or
7 and stores exactly that many bytes at the front of the scanned UID buffer
global; the remaining buffer bytes keep their previous contents. The buffer is
zeroed once in setup() (lines 68-72) and never re-zeroed between scans. -/
def scanInto (buf : UID) (bytes : List Nat) : UID :=
  fun i => if i < bytes.length then bytes.getD i 0 else buf i

/-- Stated from the spec words, for comparison with the code behaviour: a short
identifier zero padded to 7 bytes in the high order unused bytes. -/
def zeroPad (bytes : List Nat) : UID := fun i => bytes.getD i 0

/-- The EEPROM with every byte 0 and no physical writes recorded. -/
def emptyStore : EEPROMState where
  mem := fun _ => 0
  writes := fun _ => 0

/-- A store whose header reads 1 and whose single slot holds the tombstone:
addresses 1..7 are 255, everything else 0. -/
def tombstoneStore : EEPROMState where
  mem := fun a => if a = 0 then 1 else if a ≤ 7 then 255 else 0
  writes := fun _ => 0

/-- A concrete non master, non tombstone identifier: bytes 1,0,0,0,0,0,0. -/
def uid1 : UID := fun i => if i = 0 then 1 else 0

/-- A full store: header 145 and all 145 slots holding non tombstone records
(every record byte 0). -/
def fullStore : EEPROMState where
  mem := fun a => if a = 0 then 145 else 0
  writes := fun _ => 0

/-- All bytes of a UID are in byte range. -/
abbrev byteUID (u : UID) : Prop := ∀ i, i < 7 → u i < 256

/-- A UID that is not the tombstone: some byte among the first seven is not 255. -/
abbrev nonTombstoneUID (u : UID) : Prop := ∃ i, i < 7 ∧ u i ≠ 255

/-- Two UIDs differ as identifiers: some byte among the first seven differs. -/
abbrev uidDiffers (u v : UID) : Prop := ∃ i, i < 7 ∧ u i ≠ v i

/-- Iterated insert: run insertOp once per identifier, threading the store. -/
def insertMany (s : EEPROMState) (ids : List UID) : EEPROMState :=
  ids.foldl (fun t u => (insertOp t u).1) s

/-- Every insert in the sequence succeeds, that is none reports storeFull. -/
def insertAllSucceed : EEPROMState → List UID → Prop
  | _, [] => True
  | s, u :: rest =>
      (insertOp s u).2 ≠ InsertOutcome.storeFull ∧ insertAllSucceed (insertOp s u).1 rest

/-- A store whose header reads 1 and whose single slot holds uid1: address 0 is
1, address 1 is 1, all other bytes 0. -/
def grantedStore : EEPROMState where
  mem := fun a => if a = 0 then 1 else if a = 1 then 1 else 0
  writes := fun _ => 0

/-- 145 pairwise distinct single byte identifiers with first byte 1..145, used
as the concrete capacity witness family. -/
def capacityIds : List UID :=
  (List.range 145).map (fun n => fun i => if i = 0 then n + 1 else 0)

/-- One more identifier, distinct from every member of capacityIds. -/
def uidExtra : UID := fun i => if i = 0 then 200 else 0

/-! ### Facts about the write primitives -/

theorem read_eq_mem (s : EEPROMState) (a : Nat) : s.read a = s.mem a := rfl

theorem mem_write (s : EEPROMState) (a v x : Nat) :
    (s.write a v).mem x = if x = a then v % 256 else s.mem x := rfl

theorem writes_write (s : EEPROMState) (a v x : Nat) :
    (s.write a v).writes x = if x = a then s.writes x + 1 else s.writes x := rfl

theorem mem_eepromSafeWrite (s : EEPROMState) (a v x : Nat) :
    (eepromSafeWrite s a v).mem x = if x = a then v % 256 else s.mem x := by
  unfold eepromSafeWrite
  split
  · rfl
  · rename_i h
    push_neg at h
    by_cases hx : x = a
    · subst hx
      rw [if_pos rfl]
      exact h
    · rw [if_neg hx]

theorem writes_eepromSafeWrite (s : EEPROMState) (a v x : Nat) :
    (eepromSafeWrite s a v).writes x =
      if x = a ∧ s.mem a ≠ v % 256 then s.writes x + 1 else s.writes x := by
  unfold eepromSafeWrite
  split
  · rename_i h
    by_cases hx : x = a
    · rw [if_pos ⟨hx, h⟩, writes_write, if_pos hx]
    · rw [writes_write, if_neg hx, if_neg (fun hc => hx hc.1)]
  · rename_i h
    push_neg at h
    rw [if_neg (fun hc => hc.2 h)]

theorem writeBytes_cons (s : EEPROMState) (p : Nat × Nat) (ps : List (Nat × Nat)) :
    writeBytes s (p :: ps) = writeBytes (eepromSafeWrite s p.1 p.2) ps := rfl

theorem writeBytes_mem_of_notMem (ps : List (Nat × Nat)) :
    ∀ (s : EEPROMState) (x : Nat), (∀ p ∈ ps, p.1 ≠ x) →
      (writeBytes s ps).mem x = s.mem x := by
  induction ps with
  | nil => intro s x _; rfl
  | cons p ps ih =>
    intro s x h
    rw [writeBytes_cons, ih _ _ (fun q hq => h q (List.mem_cons_of_mem _ hq)),
      mem_eepromSafeWrite, if_neg (fun hx => h p (List.mem_cons_self _ _) hx.symm)]

theorem writeBytes_writes_of_notMem (ps : List (Nat × Nat)) :
    ∀ (s : EEPROMState) (x : Nat), (∀ p ∈ ps, p.1 ≠ x) →
      (writeBytes s ps).writes x = s.writes x := by
  induction ps with
  | nil => intro s x _; rfl
  | cons p ps ih =>
    intro s x h
    rw [writeBytes_cons, ih _ _ (fun q hq => h q (List.mem_cons_of_mem _ hq)),
      writes_eepromSafeWrite, if_neg (fun hc => h p (List.mem_cons_self _ _) hc.1.symm)]

theorem writeBytes_mem_of_mem (ps : List (Nat × Nat)) :
    ∀ (s : EEPROMState) (x v : Nat), (ps.map Prod.fst).Nodup → (x, v) ∈ ps →
      (writeBytes s ps).mem x = v % 256 := by
  induction ps with
  | nil => intro s x v _ hmem; cases hmem
  | cons p ps ih =>
    intro s x v hnd hmem
    rw [List.map_cons, List.nodup_cons] at hnd
    rcases List.mem_cons.mp hmem with h | h
    · have hpx : p.1 = x := by rw [← h]
      have hnt : ∀ q ∈ ps, q.1 ≠ x := by
        intro q hq he
        apply hnd.1
        rw [hpx.trans he.symm]
        exact List.mem_map_of_mem Prod.fst hq
      rw [writeBytes_cons, writeBytes_mem_of_notMem _ _ _ hnt, mem_eepromSafeWrite,
        if_pos hpx.symm, ← h]
    · rw [writeBytes_cons]
      exact ih _ _ _ hnd.2 h

theorem writeBytes_wear (ps : List (Nat × Nat)) :
    ∀ (s : EEPROMState) (x : Nat), (ps.map Prod.fst).Nodup →
      (writeBytes s ps).writes x =
        s.writes x + (if (writeBytes s ps).mem x = s.mem x then 0 else 1) := by
  induction ps with
  | nil => intro s x _; simp [writeBytes]
  | cons p ps ih =>
    intro s x hnd
    rw [List.map_cons, List.nodup_cons] at hnd
    by_cases hx : x = p.1
    · have hnt : ∀ q ∈ ps, q.1 ≠ x := by
        intro q hq he
        apply hnd.1
        rw [hx.symm.trans he.symm]
        exact List.mem_map_of_mem Prod.fst hq
      have hm := writeBytes_mem_of_notMem ps (eepromSafeWrite s p.1 p.2) x hnt
      have hw := writeBytes_writes_of_notMem ps (eepromSafeWrite s p.1 p.2) x hnt
      rw [writeBytes_cons, hw, hm, mem_eepromSafeWrite, writes_eepromSafeWrite,
        if_pos hx]
      by_cases he : s.mem p.1 = p.2 % 256
      · rw [if_neg (fun hc => hc.2 he), if_pos (by rw [hx]; exact he.symm)]
        omega
      · rw [if_pos ⟨hx, he⟩, if_neg (fun hc => he (by rw [hx] at hc; exact hc.symm))]
    · have h1 : (eepromSafeWrite s p.1 p.2).mem x = s.mem x := by
        rw [mem_eepromSafeWrite, if_neg hx]
      have h2 : (eepromSafeWrite s p.1 p.2).writes x = s.writes x := by
        rw [writes_eepromSafeWrite, if_neg (fun hc => hx hc.1)]
      rw [writeBytes_cons, ih _ _ hnd.2, h1, h2]

/-! ### The record write loop and the wipe loop, pointwise -/

theorem writeUIDAt_map_fst (base : Nat) (u : UID) :
    (((List.range 7).map (fun i => (base + i, u i))).map Prod.fst).Nodup := by
  rw [List.map_map]
  have h : (Prod.fst ∘ fun i => (base + i, u i)) = fun i => base + i := rfl
  rw [h]
  exact (List.nodup_range 7).map (fun a b hab => Nat.add_left_cancel hab)

theorem writeUIDAt_mem (s : EEPROMState) (base : Nat) (u : UID) (x : Nat) :
    (writeUIDAt s base u).mem x =
      if base ≤ x ∧ x < base + 7 then u (x - base) % 256 else s.mem x := by
  unfold writeUIDAt
  split
  · rename_i h
    apply writeBytes_mem_of_mem _ _ _ _ (writeUIDAt_map_fst base u)
    rw [List.mem_map]
    refine ⟨x - base, List.mem_range.mpr (by omega), ?_⟩
    have hb : base + (x - base) = x := by omega
    rw [hb]
  · rename_i h
    apply writeBytes_mem_of_notMem
    intro p hp
    rw [List.mem_map] at hp
    obtain ⟨i, hi, rfl⟩ := hp
    rw [List.mem_range] at hi
    show base + i ≠ x
    omega

theorem writeUIDAt_wear (s : EEPROMState) (base : Nat) (u : UID) (x : Nat) :
    (writeUIDAt s base u).writes x =
      s.writes x + (if (writeUIDAt s base u).mem x = s.mem x then 0 else 1) :=
  writeBytes_wear _ s x (writeUIDAt_map_fst base u)

theorem removeSlot_eq_writeUIDAt (s : EEPROMState) (e : Nat) :
    removeSlot s e = writeUIDAt s (slotAddr e) (fun _ => nullUIDEntry 0) := rfl

theorem removeSlot_wear (s : EEPROMState) (e x : Nat) :
    (removeSlot s e).writes x =
      s.writes x + (if (removeSlot s e).mem x = s.mem x then 0 else 1) := by
  rw [removeSlot_eq_writeUIDAt]
  exact writeUIDAt_wear s (slotAddr e) _ x

theorem wipePairs_map_fst (oob : Nat → Nat) : ((wipePairs oob).map Prod.fst).Nodup := by
  unfold wipePairs
  rw [List.map_map]
  have h : (Prod.fst ∘ fun i => (i, nullUIDEntryAt oob i)) = id := rfl
  rw [h, List.map_id]
  exact (List.nodup_range 1023).map (fun a b hab => Nat.add_right_cancel hab)

theorem wipePairs_fst_ne (oob : Nat → Nat) (x : Nat) (hx : x = 0 ∨ 1023 < x) :
    ∀ p ∈ wipePairs oob, p.1 ≠ x := by
  intro p hp
  unfold wipePairs at hp
  simp only [List.mem_map, List.mem_range] at hp
  obtain ⟨i, ⟨k, hk, rfl⟩, rfl⟩ := hp
  show k + 1 ≠ x
  omega

theorem mem_wipePairs (oob : Nat → Nat) (a : Nat) (h1 : 1 ≤ a) (h2 : a ≤ 1023) :
    (a, nullUIDEntryAt oob a) ∈ wipePairs oob := by
  unfold wipePairs
  simp only [List.mem_map, List.mem_range]
  exact ⟨a, ⟨a - 1, by omega, by omega⟩, rfl⟩

theorem wipeAll_def (oob : Nat → Nat) (s : EEPROMState) :
    wipeAll oob s = writeBytes (eepromSafeWrite s 0 0) (wipePairs oob) := rfl

theorem wipeAll_mem (oob : Nat → Nat) (s : EEPROMState) (a : Nat) :
    (wipeAll oob s).mem a =
      if a = 0 then 0
      else if a ≤ 1023 then nullUIDEntryAt oob a % 256
      else s.mem a := by
  rw [wipeAll_def]
  by_cases h0 : a = 0
  · subst h0
    rw [if_pos rfl,
      writeBytes_mem_of_notMem _ _ _ (wipePairs_fst_ne oob 0 (Or.inl rfl)),
      mem_eepromSafeWrite, if_pos rfl]
  · rw [if_neg h0]
    by_cases h1 : a ≤ 1023
    · rw [if_pos h1]
      exact writeBytes_mem_of_mem _ _ _ _ (wipePairs_map_fst oob)
        (mem_wipePairs oob a (by omega) h1)
    · rw [if_neg h1,
        writeBytes_mem_of_notMem _ _ _ (wipePairs_fst_ne oob a (Or.inr (by omega))),
        mem_eepromSafeWrite, if_neg h0]

theorem wipeAll_wear (oob : Nat → Nat) (s : EEPROMState) (x : Nat) :
    (wipeAll oob s).writes x =
      s.writes x + (if (wipeAll oob s).mem x = s.mem x then 0 else 1) := by
  rw [wipeAll_def]
  by_cases h0 : x = 0
  · subst h0
    have hnt := wipePairs_fst_ne oob 0 (Or.inl rfl)
    rw [writeBytes_mem_of_notMem _ _ _ hnt, writeBytes_writes_of_notMem _ _ _ hnt,
      mem_eepromSafeWrite, if_pos rfl, writes_eepromSafeWrite]
    by_cases he : s.mem 0 = 0 % 256
    · rw [if_neg (fun hc => hc.2 he), if_pos he.symm]
      omega
    · rw [if_pos ⟨rfl, he⟩, if_neg (fun hc => he hc.symm)]
  · have h1 : (eepromSafeWrite s 0 0).mem x = s.mem x := by
      rw [mem_eepromSafeWrite, if_neg h0]
    have h2 : (eepromSafeWrite s 0 0).writes x = s.writes x := by
      rw [writes_eepromSafeWrite, if_neg (fun hc => h0 hc.1)]
    rw [writeBytes_wear _ _ _ (wipePairs_map_fst oob), h1, h2]

/-! ### Branch equations for the insert routine -/

theorem eepromWriteScannedUIDBuffer_recycle (s : EEPROMState) (count : Nat) (u : UID)
    (e : Nat) (h : findTombstone s count = some e) :
    eepromWriteScannedUIDBuffer s count u =
      (writeUIDAt s (e * 7 + 1) u, InsertOutcome.recycled e) := by
  unfold eepromWriteScannedUIDBuffer
  rw [h]

theorem eepromWriteScannedUIDBuffer_fresh (s : EEPROMState) (count : Nat) (u : UID)
    (h1 : findTombstone s count = none) (h2 : count < 145) :
    eepromWriteScannedUIDBuffer s count u =
      ((writeUIDAt s (count * 7 + 1) u).write 0 (count + 1), InsertOutcome.fresh count) := by
  unfold eepromWriteScannedUIDBuffer
  rw [h1]
  exact if_pos h2

theorem eepromWriteScannedUIDBuffer_full (s : EEPROMState) (count : Nat) (u : UID)
    (h1 : findTombstone s count = none) (h2 : ¬count < 145) :
    eepromWriteScannedUIDBuffer s count u = (s, InsertOutcome.storeFull) := by
  unfold eepromWriteScannedUIDBuffer
  rw [h1]
  exact if_neg h2

theorem insertOp_wear (s : EEPROMState) (u : UID) (x : Nat) :
    (insertOp s u).1.writes x =
      s.writes x + (if (insertOp s u).1.mem x = s.mem x then 0 else 1) := by
  rcases hft : findTombstone s (s.read 0) with _ | e
  · by_cases hc : s.read 0 < 145
    · have he := eepromWriteScannedUIDBuffer_fresh s (s.read 0) u hft hc
      have h1 : (insertOp s u).1 =
          (writeUIDAt s (s.read 0 * 7 + 1) u).write 0 (s.read 0 + 1) := by
        unfold insertOp
        rw [he]
      rw [h1]
      by_cases hx : x = 0
      · subst hx
        have hm0 : (writeUIDAt s (s.read 0 * 7 + 1) u).mem 0 = s.mem 0 := by
          rw [writeUIDAt_mem, if_neg (by omega)]
        have hw0 : (writeUIDAt s (s.read 0 * 7 + 1) u).writes 0 = s.writes 0 := by
          rw [writeUIDAt_wear, hm0, if_pos rfl]
          omega
        have hmod : (s.read 0 + 1) % 256 = s.read 0 + 1 := Nat.mod_eq_of_lt (by omega)
        have hne : ¬((s.read 0 + 1) % 256 = s.mem 0) := by
          rw [hmod, read_eq_mem]
          omega
        rw [writes_write, if_pos rfl, hw0, mem_write, if_pos rfl, if_neg hne]
      · have hmm : ((writeUIDAt s (s.read 0 * 7 + 1) u).write 0 (s.read 0 + 1)).mem x =
            (writeUIDAt s (s.read 0 * 7 + 1) u).mem x := by
          rw [mem_write, if_neg hx]
        have hww : ((writeUIDAt s (s.read 0 * 7 + 1) u).write 0 (s.read 0 + 1)).writes x =
            (writeUIDAt s (s.read 0 * 7 + 1) u).writes x := by
          rw [writes_write, if_neg hx]
        rw [hmm, hww]
        exact writeUIDAt_wear s _ u x
    · have he := eepromWriteScannedUIDBuffer_full s (s.read 0) u hft hc
      have h1 : (insertOp s u).1 = s := by
        unfold insertOp
        rw [he]
      rw [h1, if_pos rfl]
      omega
  · have he := eepromWriteScannedUIDBuffer_recycle s (s.read 0) u e hft
    have h1 : (insertOp s u).1 = writeUIDAt s (e * 7 + 1) u := by
      unfold insertOp
      rw [he]
    rw [h1]
    exact writeUIDAt_wear s _ u x

/-! ### The UID comparison and the two scans, characterised -/

theorem checkUIDsMatch_eq_true_iff (u1 u2 : UID) :
    checkUIDsMatch u1 u2 = true ↔ ∀ i, i < 7 → u1 i = u2 i := by
  unfold checkUIDsMatch
  rw [List.all_eq_true]
  constructor
  · intro h i hi
    exact beq_iff_eq.mp (h i (List.mem_range.mpr hi))
  · intro h i hi
    exact beq_iff_eq.mpr (h i (List.mem_range.mp hi))

theorem checkUIDsMatch_eq_false_iff (u1 u2 : UID) :
    checkUIDsMatch u1 u2 = false ↔ ∃ i, i < 7 ∧ u1 i ≠ u2 i := by
  constructor
  · intro h
    by_contra hc
    push_neg at hc
    have : ∀ i, i < 7 → u1 i = u2 i := fun i hi => hc i hi
    rw [(checkUIDsMatch_eq_true_iff u1 u2).mpr this] at h
    cases h
  · intro hex
    obtain ⟨i, hi, hne⟩ := hex
    cases hb : checkUIDsMatch u1 u2
    · rfl
    · exact absurd ((checkUIDsMatch_eq_true_iff u1 u2).mp hb i hi) hne

theorem nullUIDEntry_eq_255 (i : Nat) (h : i < 7) : nullUIDEntry i = 255 := by
  interval_cases i <;> rfl

theorem findTombstone_eq_none_iff (s : EEPROMState) (count : Nat) :
    findTombstone s count = none ↔
      ∀ e, 1 ≤ e → e ≤ count →
        checkUIDsMatch (readEntry s (slotAddr e)) nullUIDEntry = false := by
  unfold findTombstone
  rw [List.find?_eq_none]
  constructor
  · intro h e h1 h2
    have hmem : e ∈ (List.range count).map (· + 1) := by
      simp only [List.mem_map, List.mem_range]
      exact ⟨e - 1, by omega, by omega⟩
    exact Bool.eq_false_iff.mpr (h e hmem)
  · intro h x hx
    simp only [List.mem_map, List.mem_range] at hx
    obtain ⟨k, hk, rfl⟩ := hx
    rw [h (k + 1) (by omega) (by omega)]
    simp

theorem findSlot_eq_none_iff (s : EEPROMState) (count : Nat) (u : UID) :
    findSlot s count u = none ↔
      ∀ e, 1 ≤ e → e ≤ count →
        checkUIDsMatch u (readEntry s (slotAddr e)) = false := by
  unfold findSlot
  rw [List.find?_eq_none]
  constructor
  · intro h e h1 h2
    have hmem : e ∈ (List.range count).map (· + 1) := by
      simp only [List.mem_map, List.mem_range]
      exact ⟨e - 1, by omega, by omega⟩
    exact Bool.eq_false_iff.mpr (h e hmem)
  · intro h x hx
    simp only [List.mem_map, List.mem_range] at hx
    obtain ⟨k, hk, rfl⟩ := hx
    rw [h (k + 1) (by omega) (by omega)]
    simp

/-! ### The fresh insert step and the capacity induction -/

theorem insertOp_fresh_step (s : EEPROMState) (u : UID) (n : Nat)
    (h0 : s.mem 0 = n) (hn : n < 145)
    (hall : ∀ e, 1 ≤ e → e ≤ n →
      checkUIDsMatch (readEntry s (slotAddr e)) nullUIDEntry = false)
    (hb : byteUID u) (ht : nonTombstoneUID u) :
    (insertOp s u).2 = InsertOutcome.fresh n ∧
    (insertOp s u).1.mem 0 = n + 1 ∧
    ∀ e, 1 ≤ e → e ≤ n + 1 →
      checkUIDsMatch (readEntry (insertOp s u).1 (slotAddr e)) nullUIDEntry = false := by
  have hr : s.read 0 = n := h0
  have hft : findTombstone s (s.read 0) = none := by
    rw [hr]
    exact (findTombstone_eq_none_iff s n).mpr hall
  have he := eepromWriteScannedUIDBuffer_fresh s (s.read 0) u hft (by omega)
  rw [hr] at he
  have hinsert : insertOp s u =
      ((writeUIDAt s (n * 7 + 1) u).write 0 (n + 1), InsertOutcome.fresh n) := by
    unfold insertOp
    rw [hr, he]
  refine ⟨by rw [hinsert], ?_, ?_⟩
  · rw [hinsert]
    show ((writeUIDAt s (n * 7 + 1) u).write 0 (n + 1)).mem 0 = n + 1
    rw [mem_write, if_pos rfl]
    exact Nat.mod_eq_of_lt (by omega)
  · intro e h1 h2
    rw [hinsert]
    show checkUIDsMatch
      (readEntry ((writeUIDAt s (n * 7 + 1) u).write 0 (n + 1)) (slotAddr e))
      nullUIDEntry = false
    by_cases hle : e ≤ n
    · have hagree : ∀ i, i < 7 →
          readEntry ((writeUIDAt s (n * 7 + 1) u).write 0 (n + 1)) (slotAddr e) i
            = readEntry s (slotAddr e) i := by
        intro i hi
        unfold readEntry
        rw [read_eq_mem, read_eq_mem, mem_write,
          if_neg (by unfold slotAddr; omega),
          writeUIDAt_mem, if_neg (by unfold slotAddr; omega)]
      obtain ⟨j, hj7, hne⟩ := (checkUIDsMatch_eq_false_iff _ _).mp (hall e h1 hle)
      refine (checkUIDsMatch_eq_false_iff _ _).mpr ⟨j, hj7, ?_⟩
      rw [hagree j hj7]
      exact hne
    · have he1 : e = n + 1 := by omega
      subst he1
      obtain ⟨j, hj7, hne⟩ := ht
      refine (checkUIDsMatch_eq_false_iff _ _).mpr ⟨j, hj7, ?_⟩
      have haddr : slotAddr (n + 1) = n * 7 + 1 := by unfold slotAddr; omega
      unfold readEntry
      rw [read_eq_mem, haddr, mem_write, if_neg (by omega), writeUIDAt_mem,
        if_pos (by omega)]
      have hidx : n * 7 + 1 + j - (n * 7 + 1) = j := by omega
      rw [hidx, Nat.mod_eq_of_lt (hb j hj7), nullUIDEntry_eq_255 j hj7]
      exact hne

theorem insertMany_success (ids : List UID) :
    ∀ (s : EEPROMState) (n : Nat), s.mem 0 = n → n + ids.length ≤ 145 →
      (∀ e, 1 ≤ e → e ≤ n →
        checkUIDsMatch (readEntry s (slotAddr e)) nullUIDEntry = false) →
      (∀ u ∈ ids, byteUID u ∧ nonTombstoneUID u) →
      insertAllSucceed s ids ∧
      (insertMany s ids).mem 0 = n + ids.length ∧
      ∀ e, 1 ≤ e → e ≤ n + ids.length →
        checkUIDsMatch (readEntry (insertMany s ids) (slotAddr e)) nullUIDEntry = false := by
  induction ids with
  | nil =>
    intro s n h0 _ hall _
    refine ⟨trivial, ?_, ?_⟩
    · show s.mem 0 = n + 0
      omega
    · intro e h1 h2
      simp only [List.length_nil] at h2
      exact hall e h1 (by omega)
  | cons u rest ih =>
    intro s n h0 hlen hall hids
    obtain ⟨hb, ht⟩ := hids u (List.mem_cons_self u rest)
    obtain ⟨ho, hm0, hinv⟩ := insertOp_fresh_step s u n h0
      (by simp only [List.length_cons] at hlen; omega) hall hb ht
    obtain ⟨h1, h2, h3⟩ := ih (insertOp s u).1 (n + 1) hm0
      (by simp only [List.length_cons] at hlen ⊢; omega)
      hinv (fun v hv => hids v (List.mem_cons_of_mem u hv))
    refine ⟨⟨?_, h1⟩, ?_, ?_⟩
    · rw [ho]
      intro hc
      cases hc
    · show (insertMany (insertOp s u).1 rest).mem 0 = n + (u :: rest).length
      rw [h2]
      simp only [List.length_cons]
      omega
    · intro e he1 he2
      show checkUIDsMatch
        (readEntry (insertMany (insertOp s u).1 rest) (slotAddr e)) nullUIDEntry = false
      refine h3 e he1 ?_
      simp only [List.length_cons] at he2
      omega

/-! ### Claim theorems -/

/-- Claim C1 (code bug evidence). On a store whose lowest (and only) tombstoned
slot within 1..count is slot 1 (count = 1, addresses 1..7 all 255), inserting
the fresh identifier uid1 leaves the header at 1 as claimed, but the source
writes the 7 identifier bytes at addresses 8..14, which is slot 2, and leaves
the tombstone at slot 1 (address 1 still 255) instead of overwriting it: the
recycle write at line 399 uses (currentEntry * 7) + 1 with a 1 based
currentEntry, one slot past the tombstone it found. -/
theorem c1_recycle_off_by_one :
    findTombstone tombstoneStore (tombstoneStore.read 0) = some 1 ∧
    (insertOp tombstoneStore uid1).2 = InsertOutcome.recycled 1 ∧
    (insertOp tombstoneStore uid1).1.mem 0 = 1 ∧
    (insertOp tombstoneStore uid1).1.mem 1 = 255 ∧
    (insertOp tombstoneStore uid1).1.mem 2 = 255 ∧
    (insertOp tombstoneStore uid1).1.mem 8 = uid1 0 ∧
    uid1 0 = 1 := by
  decide

/-- Claim C3 (code bug evidence). The same store is not full (header 1 < 145
and slot 1 is a recyclable tombstone); inserting uid1 reports success (the
recycle branch runs, not storeFull), yet the immediately following Lookup of
uid1 returns none, because the bytes went to slot 2 while the unchanged header
1 limits the scan to slot 1. -/
theorem c3_insert_lookup_mismatch :
    tombstoneStore.read 0 < 145 ∧
    (insertOp tombstoneStore uid1).2 ≠ InsertOutcome.storeFull ∧
    Lookup (insertOp tombstoneStore uid1).1 uid1 = none := by
  decide

/-- Claim C9. When the recycle scan finds no tombstone within 1..count and the
header has reached capacity, the insert routine performs no write at all: the
store, its physical write counters included, is returned unchanged, and the
outcome is storeFull. -/
theorem c9_storeFull_unchanged (s : EEPROMState) (u : UID)
    (h1 : findTombstone s (s.read 0) = none) (h2 : 145 ≤ s.read 0) :
    insertOp s u = (s, InsertOutcome.storeFull) := by
  unfold insertOp
  exact eepromWriteScannedUIDBuffer_full s (s.read 0) u h1 (by omega)

/-- Witness for c9_storeFull_unchanged: a concrete full store (header 145, all
slot bytes 0, hence no tombstone) with a concrete identifier. -/
theorem c9_storeFull_unchanged_witness :
    findTombstone fullStore (fullStore.read 0) = none ∧
    145 ≤ fullStore.read 0 ∧
    insertOp fullStore uid1 = (fullStore, InsertOutcome.storeFull) := by
  have h1 : findTombstone fullStore (fullStore.read 0) = none := by decide
  have h2 : 145 ≤ fullStore.read 0 := by decide
  exact ⟨h1, h2, c9_storeFull_unchanged fullStore uid1 h1 h2⟩

/-- Claim C2 (code bug evidence). A full wipe (master card scanned while admin
mode is on) with an all zero EEPROM and adjacent memory (the oracle) holding
zeros: address 1 (slot 1, byte 0) does receive 255, but address 7 (slot 1,
byte 6) receives the out of bounds read value 0, not the tombstone byte 255,
and so does address 1009 (slot 145, byte 0). The wipe loop at line 148 indexes
the 7 element null entry array with i up to 1023. -/
theorem c2_wipe_incomplete :
    (loopCycle (fun _ => 0) ⟨emptyStore, masterUIDEntry, true⟩).1.eeprom.mem 1 = 255 ∧
    (loopCycle (fun _ => 0) ⟨emptyStore, masterUIDEntry, true⟩).1.eeprom.mem 7 = 0 ∧
    (loopCycle (fun _ => 0) ⟨emptyStore, masterUIDEntry, true⟩).1.eeprom.mem 1009 = 0 ∧
    nullUIDEntry 6 = 255 := by
  have hcycle : loopCycle (fun _ => 0) ⟨emptyStore, masterUIDEntry, true⟩
      = (⟨wipeAll (fun _ => 0) emptyStore, masterUIDEntry, false⟩, Outcome.wiped) := rfl
  refine ⟨?_, ?_, ?_, rfl⟩
  · rw [hcycle]
    dsimp only
    rw [wipeAll_mem]
    decide
  · rw [hcycle]
    dsimp only
    rw [wipeAll_mem]
    decide
  · rw [hcycle]
    dsimp only
    rw [wipeAll_mem]
    decide

/-- Claim C4. Every store mutating operation of the source is wear minimising
at the byte level: for the insert routine (as called from loop(), with the
entry count read from address 0), the removal loop, and the full wipe, the
physical write counter at an address goes up, and then by exactly one, exactly
when the stored byte at that address changes; in particular an operation that
leaves a byte equal to its stored value performs no physical write there. The
one raw EEPROM.write of the source (the header update at line 422) only runs
with a value count+1 that differs from the stored count, so the property holds
for it as well. -/
theorem c4_write_if_changed (s : EEPROMState) (u : UID) (e x : Nat) (oob : Nat → Nat) :
    ((insertOp s u).1.writes x =
      s.writes x + (if (insertOp s u).1.mem x = s.mem x then 0 else 1)) ∧
    ((removeSlot s e).writes x =
      s.writes x + (if (removeSlot s e).mem x = s.mem x then 0 else 1)) ∧
    ((wipeAll oob s).writes x =
      s.writes x + (if (wipeAll oob s).mem x = s.mem x then 0 else 1)) :=
  ⟨insertOp_wear s u x, removeSlot_wear s e x, wipeAll_wear oob s x⟩

/-- Claim C6. A non master scan handled while admin mode is on always leaves
admin mode off at the end of the pass: the removal branch clears the flag at
line 191 and eepromWriteScannedUIDBuffer clears it at line 435 on all three of
its paths (recycle, fresh and out of space alike). -/
theorem c6_admin_one_shot (oob : Nat → Nat) (st : SysState)
    (hA : st.adminMode = true)
    (hM : checkUIDsMatch st.scannedUIDBuffer masterUIDEntry = false) :
    (loopCycle oob st).1.adminMode = false := by
  unfold loopCycle
  simp only [hM, hA, Bool.not_true, Bool.false_eq_true, if_false]
  split
  · split <;> rfl
  · rfl

/-- Witness for c6_admin_one_shot: admin mode on, a non master card, over the
concrete single tombstone store. -/
theorem c6_admin_one_shot_witness :
    (⟨tombstoneStore, uid1, true⟩ : SysState).adminMode = true ∧
    checkUIDsMatch uid1 masterUIDEntry = false ∧
    (loopCycle (fun _ => 0) ⟨tombstoneStore, uid1, true⟩).1.adminMode = false :=
  ⟨rfl, by decide, c6_admin_one_shot (fun _ => 0) ⟨tombstoneStore, uid1, true⟩ rfl (by decide)⟩

/-- Claim C10. A non master scan handled while admin mode is off leaves the
EEPROM untouched, the physical write counters included, in the granted branch
(unlockDoor drives only the motor and LEDs), the denied branch and the empty
database branch alike. -/
theorem c10_normal_no_store_writes (oob : Nat → Nat) (st : SysState)
    (hA : st.adminMode = false)
    (hM : checkUIDsMatch st.scannedUIDBuffer masterUIDEntry = false) :
    (loopCycle oob st).1.eeprom = st.eeprom := by
  unfold loopCycle
  simp only [hM, hA, Bool.not_false, Bool.false_eq_true, if_false, if_true]
  split
  · split <;> rfl
  · rfl

/-- Witness for c10_normal_no_store_writes: normal mode, the stored identifier
uid1 presented over grantedStore (the granted branch runs). -/
theorem c10_normal_no_store_writes_witness :
    (⟨grantedStore, uid1, false⟩ : SysState).adminMode = false ∧
    checkUIDsMatch uid1 masterUIDEntry = false ∧
    (loopCycle (fun _ => 0) ⟨grantedStore, uid1, false⟩).1.eeprom = grantedStore :=
  ⟨rfl, by decide,
    c10_normal_no_store_writes (fun _ => 0) ⟨grantedStore, uid1, false⟩ rfl (by decide)⟩

/-- Claim C7. Presenting the master card twice from normal mode, over any store
and any adjacent memory oracle: the first pass only turns admin mode on, the
second wipes; afterwards the header byte reads 0 and Lookup of every
identifier returns none, because the scan range 1..0 is empty. -/
theorem c7_double_master_wipe (oob : Nat → Nat) (st : SysState)
    (hA : st.adminMode = false)
    (hM : checkUIDsMatch st.scannedUIDBuffer masterUIDEntry = true) :
    (loopCycle oob (loopCycle oob st).1).1.eeprom.read 0 = 0 ∧
    ∀ u : UID, Lookup (loopCycle oob (loopCycle oob st).1).1.eeprom u = none := by
  have h1 : loopCycle oob st = ({ st with adminMode := true }, Outcome.enteredAdmin) := by
    unfold loopCycle
    simp only [hM, hA, Bool.not_false, if_true]
  have h2 : loopCycle oob { st with adminMode := true }
      = ({ st with eeprom := wipeAll oob st.eeprom, adminMode := false },
          Outcome.wiped) := by
    unfold loopCycle
    simp only [hM, Bool.not_true, Bool.false_eq_true, if_false, if_true]
  rw [h1]
  dsimp only
  rw [h2]
  dsimp only
  have hread : (wipeAll oob st.eeprom).read 0 = 0 := by
    rw [read_eq_mem, wipeAll_mem]
    rfl
  refine ⟨hread, ?_⟩
  intro u
  unfold Lookup
  rw [hread]
  rfl

/-- Witness for c7_double_master_wipe: the master card presented twice from
normal mode over the concrete single tombstone store. -/
theorem c7_double_master_wipe_witness :
    (⟨tombstoneStore, masterUIDEntry, false⟩ : SysState).adminMode = false ∧
    checkUIDsMatch masterUIDEntry masterUIDEntry = true ∧
    ((loopCycle (fun _ => 0)
        (loopCycle (fun _ => 0) ⟨tombstoneStore, masterUIDEntry, false⟩).1).1.eeprom.read 0
        = 0 ∧
      ∀ u : UID,
        Lookup (loopCycle (fun _ => 0)
          (loopCycle (fun _ => 0) ⟨tombstoneStore, masterUIDEntry, false⟩).1).1.eeprom u
          = none) :=
  ⟨rfl, by decide,
    c7_double_master_wipe (fun _ => 0) ⟨tombstoneStore, masterUIDEntry, false⟩ rfl (by decide)⟩

/-- Claim C5 counterexample. The scanned UID buffer is zeroed once at startup
and the reader writes only uidLength bytes per scan: after a 7 byte scan of
all nines followed by a 4 byte scan of 1,2,3,4, byte 4 of the buffer still
holds 9, so the identifier the pass compares and stores is not the 4 scanned
bytes zero padded, contradicting the claim for scans that follow a 7 byte
scan. -/
theorem c5_stale_high_bytes :
    scanInto (scanInto (fun _ => 0) [9, 9, 9, 9, 9, 9, 9]) [1, 2, 3, 4] 4 = 9 ∧
    zeroPad [1, 2, 3, 4] 4 = 0 ∧
    checkUIDsMatch (scanInto (scanInto (fun _ => 0) [9, 9, 9, 9, 9, 9, 9]) [1, 2, 3, 4])
      (zeroPad [1, 2, 3, 4]) = false := by
  decide

/-- Claim C5 as amended. For a 4 byte scan the identifier used is the 4
scanned bytes in positions 0..3 while positions 4..6 keep the bytes already in
the buffer; it coincides with the zero padded identifier exactly when those
residual bytes are zero, as after startup or when no 7 byte scan intervened. -/
theorem c5_amended_zero_residue (buf : UID) (bytes : List Nat)
    (h4 : bytes.length = 4) (hhi : ∀ i, i < 7 → 4 ≤ i → buf i = 0) :
    ∀ i, i < 7 → scanInto buf bytes i = zeroPad bytes i := by
  intro i hi
  unfold scanInto zeroPad
  by_cases hlt : i < bytes.length
  · rw [if_pos hlt]
  · rw [if_neg hlt, List.getD_eq_default]
    · exact hhi i hi (by omega)
    · omega

/-- Witness for c5_amended_zero_residue: the startup buffer (all zeros) and the
4 byte scan 1,2,3,4. -/
theorem c5_amended_zero_residue_witness :
    ([1, 2, 3, 4] : List Nat).length = 4 ∧
    (∀ i, i < 7 → 4 ≤ i → (fun _ => (0 : Nat) : UID) i = 0) ∧
    ∀ i, i < 7 → scanInto (fun _ => 0) [1, 2, 3, 4] i = zeroPad [1, 2, 3, 4] i :=
  ⟨rfl, by decide,
    c5_amended_zero_residue (fun _ => 0) [1, 2, 3, 4] rfl (by decide)⟩

/-- Claim C8. From the empty store, inserting 145 pairwise distinct byte
valued identifiers, none the tombstone and none the master, succeeds on every
insert (each lands in a fresh slot, the recycle scan finding no tombstone
since no removal intervened), and a 146th insert of a further identifier
reports storeFull. -/
theorem c8_capacity (ids : List UID) (u : UID)
    (hlen : ids.length = 145)
    (hids : ∀ v ∈ ids, byteUID v ∧ nonTombstoneUID v ∧ uidDiffers v masterUIDEntry)
    (hdist : ids.Pairwise uidDiffers)
    (hbu : byteUID u) (htu : nonTombstoneUID u) (hmu : uidDiffers u masterUIDEntry)
    (hnu : ∀ v ∈ ids, uidDiffers u v) :
    insertAllSucceed emptyStore ids ∧
    (insertOp (insertMany emptyStore ids) u).2 = InsertOutcome.storeFull := by
  obtain ⟨h1, h2, h3⟩ := insertMany_success ids emptyStore 0 rfl (by omega)
    (fun e he1 he2 => absurd (he1.trans he2) (by omega))
    (fun v hv => ⟨(hids v hv).1, (hids v hv).2.1⟩)
  refine ⟨h1, ?_⟩
  have hr : (insertMany emptyStore ids).read 0 = 145 := by
    rw [read_eq_mem, h2, hlen]
  have hft : findTombstone (insertMany emptyStore ids)
      ((insertMany emptyStore ids).read 0) = none := by
    rw [hr]
    exact (findTombstone_eq_none_iff _ 145).mpr
      (fun e he1 he2 => h3 e he1 (by omega))
  have hfull := eepromWriteScannedUIDBuffer_full (insertMany emptyStore ids)
    ((insertMany emptyStore ids).read 0) u hft (by omega)
  show (eepromWriteScannedUIDBuffer (insertMany emptyStore ids)
    ((insertMany emptyStore ids).read 0) u).2 = InsertOutcome.storeFull
  rw [hfull]

/-- Witness for c8_capacity: the 145 identifiers of capacityIds and the extra
identifier uidExtra. -/
theorem c8_capacity_witness :
    capacityIds.length = 145 ∧
    insertAllSucceed emptyStore capacityIds ∧
    (insertOp (insertMany emptyStore capacityIds) uidExtra).2 = InsertOutcome.storeFull := by
  have hids : ∀ v ∈ capacityIds,
      byteUID v ∧ nonTombstoneUID v ∧ uidDiffers v masterUIDEntry := by
    intro v hv
    unfold capacityIds at hv
    simp only [List.mem_map, List.mem_range] at hv
    obtain ⟨n, hn, rfl⟩ := hv
    refine ⟨?_, ⟨1, by omega, by simp⟩, ⟨1, by omega, ?_⟩⟩
    · intro i hi
      dsimp only
      split <;> omega
    · show (if (1 : Nat) = 0 then n + 1 else 0) ≠ masterUIDEntry 1
      rw [if_neg (by omega : ¬(1 : Nat) = 0)]
      decide
  have hdist : capacityIds.Pairwise uidDiffers := by
    unfold capacityIds
    rw [List.pairwise_map]
    refine (List.pairwise_lt_range 145).imp ?_
    intro a b hab
    refine ⟨0, by omega, ?_⟩
    show (if (0 : Nat) = 0 then a + 1 else 0) ≠ (if (0 : Nat) = 0 then b + 1 else 0)
    rw [if_pos rfl, if_pos rfl]
    omega
  have hnu : ∀ v ∈ capacityIds, uidDiffers uidExtra v := by
    intro v hv
    unfold capacityIds at hv
    simp only [List.mem_map, List.mem_range] at hv
    obtain ⟨n, hn, rfl⟩ := hv
    refine ⟨0, by omega, ?_⟩
    show uidExtra 0 ≠ (if (0 : Nat) = 0 then n + 1 else 0)
    rw [if_pos rfl]
    unfold uidExtra
    rw [if_pos rfl]
    omega
  have hlen : capacityIds.length = 145 := by
    unfold capacityIds
    simp
  have h := c8_capacity capacityIds uidExtra hlen hids hdist
    (by decide) (by decide) (by decide) hnu
  exact ⟨hlen, h.1, h.2⟩
